import Mathlib

/-!
Shallow embedding of the `icon_skill` repository (liquid-glass-app-icon):
prompt compilation (`prompt_compiler.py`), image validation (`validators.py`),
session storage (`storage.py`) and the generate orchestration loop (`main.py`).

Python strings are modelled as Lean `String` / `List Char`; images are modelled
as a width, a height and a total pixel function returning RGBA components
(the `PIL.Image` decoding itself is outside the embedded core, so an image is
taken at the decoded-pixel level).  Mutation of the Python `ValidationResult`
dataclass is modelled by explicit state passing.
-/

set_option maxHeartbeats 1000000
set_option maxRecDepth 10000

namespace IconSkill

/-! ### Image model (decoded pixels, RGBA) -/

/-- One RGBA pixel, components in 0..255 (the bounds are irrelevant to the
claims and are not enforced). Mirrors the 4-tuples returned by
`Image.getpixel` / `Image.getdata` on an RGBA image. -/
structure RGBA where
  r : Nat
  g : Nat
  b : Nat
  a : Nat
deriving DecidableEq, Repr

/-- A decoded image: dimensions plus a total pixel lookup `pix x y`
(x = column, y = row).  `img.convert("RGBA")` is the identity in this model
since pixels are already RGBA. -/
structure Img where
  width : Nat
  height : Nat
  pix : Nat → Nat → RGBA

/-- Models `img.resize((w', h'), Image.NEAREST)` pixel lookup: Pillow's
nearest-neighbour resampling samples the source at the centre of each
destination pixel, i.e. source x = floor((x + 0.5) * width / w'). -/
def resizeNearest (img : Img) (w h : Nat) : Img :=
  { width := w
    height := h
    pix := fun x y => img.pix ((2 * x + 1) * img.width / (2 * w)) ((2 * y + 1) * img.height / (2 * h)) }

/-- Models `small.getdata()` after `resize((256, 256), Image.NEAREST)`:
row-major list of the 256×256 downsampled pixels. -/
def smallData (img : Img) : List RGBA :=
  ((List.range 256).map (fun y =>
    (List.range 256).map (fun x => (resizeNearest img 256 256).pix x y))).flatten

/-! ### `validators.py` -/

/-- `ValidationResult` dataclass: outcome of validating a single image. -/
structure ValidationResult where
  passed : Bool := true
  warnings : List String := []
  errors : List String := []
deriving DecidableEq, Repr

/-- The `ok` property: `self.passed and not self.errors`. -/
def ValidationResult.ok (r : ValidationResult) : Bool :=
  r.passed && r.errors.isEmpty

/-- Error message of `check_size` (f-string with the actual dimensions). -/
def sizeErrorMsg (w h : Nat) : String :=
  "Expected 1024x1024, got " ++ toString w ++ "x" ++ toString h

/-- `check_size`: image must be exactly 1024x1024. -/
def check_size (img : Img) (result : ValidationResult) : ValidationResult :=
  if (img.width, img.height) ≠ (1024, 1024) then
    { result with passed := false
                  errors := result.errors ++ [sizeErrorMsg img.width img.height] }
  else result

/-- The four corner coordinates and labels inspected by `check_corners`. -/
def cornerList : List ((Nat × Nat) × String) :=
  [((0, 0), "top-left"), ((1023, 0), "top-right"),
   ((0, 1023), "bottom-left"), ((1023, 1023), "bottom-right")]

/-- Error message of `check_corners` (f-string; `RGBA{pixel}` prints the
Python 4-tuple as `(r, g, b, a)`). -/
def cornerErrorMsg (label : String) (x y : Nat) (p : RGBA) : String :=
  "Corner " ++ label ++ " at (" ++ toString x ++ "," ++ toString y ++ ") is RGBA(" ++
    toString p.r ++ ", " ++ toString p.g ++ ", " ++ toString p.b ++ ", " ++ toString p.a ++
    "), expected transparent (alpha=0)"

/-- `check_corners`: all four corner pixels must have alpha ≤ 10. -/
def check_corners (img : Img) (result : ValidationResult) : ValidationResult :=
  cornerList.foldl
    (fun acc c =>
      let p := img.pix c.1.1 c.1.2
      if p.a > 10 then
        { acc with passed := false
                   errors := acc.errors ++ [cornerErrorMsg c.2 c.1.1 c.1.2 p] }
      else acc)
    result

/-- The distinct opaque colors counted by `check_color_count`: downsample to
256×256 (nearest neighbour), keep pixels with alpha > 10, key them by their
RGB triple (`pixel[:3]`, alpha dropped), count distinct values (Python `set`).
`List.dedup` keeps one representative per distinct triple. -/
def opaqueColors (img : Img) : List (Nat × Nat × Nat) :=
  (((smallData img).filter (fun p => p.a > 10)).map (fun p => (p.r, p.g, p.b))).dedup

/-- Hard-error message of `check_color_count`. -/
def colorErrorMsg (colors : Nat) : String :=
  "Too many opaque colors (" ++ toString colors ++ ") — image likely has gradients or details"

/-- Warning message of `check_color_count`. -/
def colorWarnMsg (colors : Nat) : String :=
  "Opaque color count is " ++ toString colors ++ " (ideal is 1) — may have anti-aliasing or slight variation"

/-- `check_color_count`: warn above 5 distinct opaque colors, fail above 20. -/
def check_color_count (img : Img) (result : ValidationResult) : ValidationResult :=
  let colors := (opaqueColors img).length
  if colors > 20 then
    { result with passed := false
                  errors := result.errors ++ [colorErrorMsg colors] }
  else if colors > 5 then
    { result with warnings := result.warnings ++ [colorWarnMsg colors] }
  else result

/-- `validate`: run all validation checks on a (decoded) image. The corner
check runs only when the size is exactly 1024×1024; the palette check always
runs. -/
def validate (img : Img) : ValidationResult :=
  let result : ValidationResult := {}
  let result := check_size img result
  let result := if (img.width, img.height) = (1024, 1024) then check_corners img result else result
  check_color_count img result

/-! ### `storage.py` — session state -/

/-- One entry of the append-only `history` list (the Python dicts appended by
`update_session_after_generate` / `update_session_after_edit`). -/
inductive HistoryEntry where
  | generate (description : String) (paths : List String) (timestamp : String)
  | edit (change : String) (path : String) (timestamp : String)
deriving DecidableEq, Repr

/-- The session-state record persisted in `session_state.json`. -/
structure SessionState where
  last_generated : List String
  last_description : String
  last_model : String
  edit_count : Nat
  history : List HistoryEntry
deriving DecidableEq, Repr

/-- The default state returned by `load_session` when the file is absent or
unreadable/invalid. -/
def default_session : SessionState :=
  { last_generated := []
    last_description := ""
    last_model := ""
    edit_count := 0
    history := [] }

/-- The possible states of the `session_state.json` file as observed by
`load_session`: absent (`path.exists()` is false); unreadable, i.e.
`read_text()` fails with an `OSError`; readable but holding bytes that are
not valid UTF-8, so `read_text()` raises `UnicodeDecodeError`; or readable
UTF-8 text content. -/
inductive SessionFile where
  | absent
  | unreadable
  | undecodable
  | content (text : String)
deriving DecidableEq, Repr

/-- A Python value as `json.loads` can return it: either an object of the
session shape, or any other JSON value (a list, a number, a string, an
object of a different shape).  `load_session` never inspects the shape —
whatever parses is returned as-is. -/
inductive PyJson where
  | sessionDict (s : SessionState)
  | otherValue
deriving DecidableEq, Repr

/-- Outcome of a `load_session` call: a value returned normally, or an
uncaught `UnicodeDecodeError` (a `ValueError`) propagating out of
`path.read_text()` — the `except` clause catches only `json.JSONDecodeError`
and `OSError`. -/
inductive LoadResult where
  | value (v : PyJson)
  | unicodeDecodeError
deriving DecidableEq, Repr

/-- `load_session`, parameterised by the JSON decoding of the file text
(`json.loads` is an external library; `parse t = none` models a
`json.JSONDecodeError`).  An absent file, an `OSError` on reading, and a
JSON decode failure each yield the default dict; text that parses yields
the parsed value unchanged, whatever its shape; and a readable file whose
bytes do not decode as UTF-8 raises `UnicodeDecodeError` to the caller,
since the `except (json.JSONDecodeError, OSError)` clause does not cover
it. -/
def load_session (parse : String → Option PyJson) : SessionFile → LoadResult
  | .absent => .value (.sessionDict default_session)
  | .unreadable => .value (.sessionDict default_session)
  | .undecodable => .unicodeDecodeError
  | .content t =>
    match parse t with
    | some v => .value v
    | none => .value (.sessionDict default_session)

/-- `update_session_after_generate` as a pure transformer of the loaded state
(the function reads the state, mutates it, and saves it back; `ts` stands for
`datetime.now().isoformat()`). -/
def update_session_after_generate (paths : List String) (description model ts : String)
    (state : SessionState) : SessionState :=
  { state with
      last_generated := paths
      last_description := description
      last_model := model
      edit_count := 0
      history := state.history ++ [HistoryEntry.generate description paths ts] }

/-- `update_session_after_edit` as a pure transformer of the loaded state. -/
def update_session_after_edit (path change ts : String)
    (state : SessionState) : SessionState :=
  { state with
      edit_count := state.edit_count + 1
      last_generated := [path]
      history := state.history ++ [HistoryEntry.edit change path ts] }

/-! ### `prompt_compiler.py` — case-insensitive substring replacement

`re.sub(re.compile(re.escape(word), re.IGNORECASE), repl, text)` on an escaped
literal pattern is leftmost, non-overlapping, case-insensitive substring
replacement.  It is modelled below on `List Char`, with case-insensitivity as
ASCII lowercasing (`Char.toLower`), which agrees with `re.IGNORECASE` on the
ASCII banned words used here. -/

/-- Case-insensitive character comparison. -/
def lowerEq (a b : Char) : Bool := a.toLower == b.toLower

/-- `isPrefCI p s`: `p` is a case-insensitive prefix of `s`. -/
def isPrefCI : List Char → List Char → Bool
  | [], _ => true
  | _ :: _, [] => false
  | p :: ps, c :: cs => lowerEq p c && isPrefCI ps cs

/-- `containsCI p s`: `p` occurs case-insensitively as a substring of `s`. -/
def containsCI (p : List Char) : List Char → Bool
  | [] => p.isEmpty
  | c :: cs => isPrefCI p (c :: cs) || containsCI p cs

/-- Leftmost non-overlapping case-insensitive replacement of every occurrence
of the (nonempty) pattern `p` by `r`, as performed by `pattern.sub(r, s)`.
After a match the scan resumes right after the matched segment. -/
def replaceCI (p r : List Char) : List Char → List Char
  | [] => []
  | c :: cs =>
    if isPrefCI p (c :: cs) then r ++ replaceCI p r (cs.drop (p.length - 1))
    else c :: replaceCI p r cs
termination_by s => s.length
decreasing_by
  · simp only [List.length_drop, List.length_cons]; omega
  · simp only [List.length_cons]; omega

/-- `CONSTRAINTS_PREAMBLE` — the core constraint block prepended to every
generation prompt. -/
def CONSTRAINTS_PREAMBLE : String :=
  "Generate a 1024x1024 PNG icon layer with ALL of these rules:\n\nBACKGROUND: Pure black background (RGB 0,0,0) filling the entire canvas.\nSHAPE: Exactly ONE continuous silhouette shape — no separate pieces, no floating elements.\nCOLOR: The silhouette must be ONE solid flat color — absolutely NO gradients, shadows, highlights, glow, outlines, textures, or internal details.\nGEOMETRY: Large smooth rounded curves. Avoid thin lines, small details, or intricate features.\nCOMPOSITION: Centered on the canvas with approximately 60px margin on all sides. Bold, geometric, and readable at small sizes.\nCORNERS: All four corners of the image MUST be pure black (RGB 0,0,0).\nSTYLE: Ultra-minimal flat design. Think of a single-color vinyl sticker silhouette.\n"

/-- `VARIANT_GUIDES` — each encourages a different silhouette approach. -/
def VARIANT_GUIDES : List String :=
  ["STYLE GUIDE: Bold, rounded, balanced silhouette. Symmetric and compact.",
   "STYLE GUIDE: Outer contour suggests a layered or dimensional form, but without any interior lines or detail. One solid filled shape only.",
   "STYLE GUIDE: Thick crescent or arc-based silhouette. Simple, readable, with generous curves."]

/-- `_BANNED_WORDS = {"petal", "petals"}`.  The Python object is a two-element
`set`, whose iteration order is interpreter-dependent; it is fixed here as the
listed order (every theorem below also holds for the opposite order, since one
pass with either word order removes all occurrences of both words). -/
def _BANNED_WORDS : List String := ["petal", "petals"]

/-- The fixed neutral replacement phrase used by `_sanitize`. -/
def REPLACEMENT : String := "rounded leaf-like form"

/-- `_sanitize`: replace banned words that cause the model to add unwanted
detail. -/
def _sanitize (text : String) : String :=
  _BANNED_WORDS.foldl (fun t word => ⟨replaceCI word.data REPLACEMENT.data t.data⟩) text

/-- `build_prompts`: one fully-constrained prompt per variant; variant `i`
uses style guide `i % len(VARIANT_GUIDES)` and the prompt is the sanitized
f-string `f"{CONSTRAINTS_PREAMBLE}\n{guide}\n\nSUBJECT: {description}"`. -/
def build_prompts (description : String) (num_variants : Nat := 3) : List String :=
  (List.range num_variants).map (fun i =>
    _sanitize (CONSTRAINTS_PREAMBLE ++ "\n" ++
      VARIANT_GUIDES.getD (i % VARIANT_GUIDES.length) "" ++
      "\n\nSUBJECT: " ++ description))

/-- `strengthened_suffix`: appended to the original prompt for the single
validation retry. -/
def strengthened_suffix : String :=
  "\n\nCRITICAL REMINDER: The four corners MUST be pure black. Use ONLY ONE flat color for the silhouette — no gradients, no shading, no highlights. The background must be completely black. Keep the shape simple with smooth curves."

/-! ### `main.py` — the `_generate` orchestration loop

External collaborators are parameters: the backend call
`openai_client.generate_image` is a total function `gen` from prompt to image
bytes (the claim's hypothesis that every backend call returns image bytes),
decoding the saved bytes with PIL is `decode` (so `validators.validate(path)`
on a path holding bytes `b` is `validate (decode b)`), and
`storage.save_image(bytes, storage.build_filename(description, i))` resolves
to the timestamped path `pathOf i` for variant index `i` (`build_filename`
depends on the wall clock, fixed for the invocation). -/

/-- The external collaborators of one `_generate` invocation. -/
structure GenEnv where
  gen : String → List Nat
  decode : List Nat → Img
  pathOf : Nat → String
  model : String
  ts : String

/-- Overwriting file write: the store maps each path to its content. -/
def writeFile (fs : String → Option (List Nat)) (p : String) (b : List Nat) :
    String → Option (List Nat) :=
  fun q => if q = p then some b else fs q

/-- Observable state threaded through the generate loop: the file store, the
`saved_paths` accumulator, the trace of prompts sent to the backend, and the
final validation result of each variant. -/
structure GenState where
  fs : String → Option (List Nat)
  saved : List String
  calls : List String
  results : List ValidationResult

/-- Body of the `for i, prompt in enumerate(prompts, start=1)` loop of
`_generate`: generate, save, validate; if not ok, strengthen the prompt, call
the backend exactly once more, overwrite the same path, re-validate; the path
is appended to `saved_paths` regardless of the validation outcome. -/
def _generate_variant (env : GenEnv) (prompt : String) (i : Nat) (st : GenState) : GenState :=
  let path := env.pathOf i
  let image_bytes := env.gen prompt
  let fs1 := writeFile st.fs path image_bytes
  let result := validate (env.decode image_bytes)
  if result.ok then
    { fs := fs1
      saved := st.saved ++ [path]
      calls := st.calls ++ [prompt]
      results := st.results ++ [result] }
  else
    let stronger := prompt ++ strengthened_suffix
    let image_bytes2 := env.gen stronger
    let fs2 := writeFile fs1 path image_bytes2
    let result2 := validate (env.decode image_bytes2)
    { fs := fs2
      saved := st.saved ++ [path]
      calls := st.calls ++ [prompt, stronger]
      results := st.results ++ [result2] }

/-- The sequential variant loop over the enumerated prompts. -/
def _generate_loop (env : GenEnv) : List (Nat × String) → GenState → GenState
  | [], st => st
  | ip :: rest, st => _generate_loop env rest (_generate_variant env ip.2 ip.1 st)

/-- `_generate description variants`: build the prompts, run the loop over
`enumerate(prompts, start=1)`, then update the session state with all saved
paths.  Returns the loop state and the session state after
`update_session_after_generate`. -/
def _generate (env : GenEnv) (description : String) (variants : Nat)
    (fs0 : String → Option (List Nat)) (session0 : SessionState) :
    GenState × SessionState :=
  let prompts := build_prompts description variants
  let st := _generate_loop env ((List.range' 1 prompts.length).zip prompts)
    { fs := fs0, saved := [], calls := [], results := [] }
  (st, update_session_after_generate st.saved description env.model env.ts session0)

/-! ### Concrete test inputs (used by witnesses) -/

/-- A constant-colour image. -/
def constImg (w h : Nat) (px : RGBA) : Img :=
  { width := w, height := h, pix := fun _ _ => px }

/-- Fully transparent 1024×1024 image: passes all three checks. -/
def cimgGood : Img := constImg 1024 1024 ⟨0, 0, 0, 0⟩

/-- Fully transparent 512×512 image: fails the size check only. -/
def cimg512 : Img := constImg 512 512 ⟨0, 0, 0, 0⟩

/-- 1024×1024 image, transparent except for an opaque top-left corner. -/
def oneCornerImg : Img :=
  { width := 1024, height := 1024
    pix := fun x y => if x = 0 ∧ y = 0 then ⟨0, 0, 0, 255⟩ else ⟨0, 0, 0, 0⟩ }

/-- A concrete orchestration environment whose backend always returns bytes
that decode to the invalid (wrong-size) `cimg512`. -/
def env512 : GenEnv :=
  { gen := fun _ => [0]
    decode := fun _ => cimg512
    pathOf := fun i => "icons/v" ++ toString i ++ ".png"
    model := "gpt-image-1"
    ts := "2026-01-01T00:00:00" }

/-! ### Helper lemmas about the validator -/

/-- Characterization of the corner fold: `passed` is and-ed with acceptance of
every inspected corner, one error is appended per corner with alpha > 10, and
warnings are untouched. -/
theorem corners_foldl (img : Img) (l : List ((Nat × Nat) × String)) (r : ValidationResult) :
    (l.foldl
      (fun acc c =>
        let p := img.pix c.1.1 c.1.2
        if p.a > 10 then
          { acc with passed := false
                     errors := acc.errors ++ [cornerErrorMsg c.2 c.1.1 c.1.2 p] }
        else acc)
      r)
    = { passed := r.passed && l.all (fun c => decide ((img.pix c.1.1 c.1.2).a ≤ 10)),
        warnings := r.warnings,
        errors := r.errors ++ (l.filter (fun c => decide (10 < (img.pix c.1.1 c.1.2).a))).map
          (fun c => cornerErrorMsg c.2 c.1.1 c.1.2 (img.pix c.1.1 c.1.2)) } := by
  induction l generalizing r with
  | nil => simp
  | cons c l ih =>
    by_cases h : 10 < (img.pix c.1.1 c.1.2).a
    · have hne : ¬ (img.pix c.1.1 c.1.2).a ≤ 10 := Nat.not_le.2 h
      simp [ih, h, hne, List.append_assoc]
    · have hle : (img.pix c.1.1 c.1.2).a ≤ 10 := Nat.not_lt.1 h
      simp [ih, h, hle]

/-- `check_corners` in closed form. -/
theorem check_corners_eq (img : Img) (r : ValidationResult) :
    check_corners img r
    = { passed := r.passed && cornerList.all (fun c => decide ((img.pix c.1.1 c.1.2).a ≤ 10)),
        warnings := r.warnings,
        errors := r.errors ++ (cornerList.filter (fun c => decide (10 < (img.pix c.1.1 c.1.2).a))).map
          (fun c => cornerErrorMsg c.2 c.1.1 c.1.2 (img.pix c.1.1 c.1.2)) } :=
  corners_foldl img cornerList r

/-- Flattening a replicated replicate. -/
theorem flatten_replicate_replicate {α : Type} (m : Nat) (x : α) :
    ∀ n, (List.replicate n (List.replicate m x)).flatten = List.replicate (n * m) x := by
  intro n
  induction n with
  | zero => simp
  | succ n ih =>
    rw [List.replicate_succ, List.flatten_cons, ih, Nat.succ_mul, Nat.add_comm,
      List.replicate_add]

/-- The downsample of a constant image is constant. -/
theorem smallData_const (w h : Nat) (px : RGBA) :
    smallData (constImg w h px) = List.replicate (256 * 256) px := by
  simp only [smallData, resizeNearest, constImg, List.map_const', List.length_range]
  exact flatten_replicate_replicate 256 px 256

/-- A constant image with transparent pixels has no opaque colors. -/
theorem opaqueColors_transparent (w h : Nat) (px : RGBA) (hpx : px.a ≤ 10) :
    opaqueColors (constImg w h px) = [] := by
  unfold opaqueColors
  rw [smallData_const, List.filter_replicate, if_neg (by simp [Nat.not_lt.2 hpx])]
  rfl

/-- A constant image with opaque pixels has exactly one opaque color. -/
theorem opaqueColors_opaque (w h : Nat) (px : RGBA) (hpx : 10 < px.a) :
    opaqueColors (constImg w h px) = [(px.r, px.g, px.b)] := by
  unfold opaqueColors
  rw [smallData_const, List.filter_replicate, if_pos (by simp [hpx]), List.map_replicate]
  exact List.replicate_dedup (by norm_num)

/-- The transparent 1024×1024 image validates cleanly. -/
theorem validate_cimgGood : validate cimgGood = {} := by
  have h0 : opaqueColors cimgGood = [] := opaqueColors_transparent _ _ _ (by norm_num)
  have hs : check_size cimgGood {} = {} := by simp [check_size, cimgGood, constImg]
  have hc : check_corners cimgGood ({} : ValidationResult) = {} := by
    rw [check_corners_eq]; simp [cimgGood, constImg, cornerList]
  have hcc : ∀ r, check_color_count cimgGood r = r := fun r => by
    simp [check_color_count, h0]
  simp only [validate]
  rw [hs, if_pos (by simp [cimgGood, constImg]), hc, hcc]

/-- The transparent 512×512 image fails exactly the size check. -/
theorem validate_cimg512 :
    validate cimg512 = { passed := false, warnings := [], errors := [sizeErrorMsg 512 512] } := by
  have h0 : opaqueColors cimg512 = [] := opaqueColors_transparent _ _ _ (by norm_num)
  have hs : check_size cimg512 {}
      = ({ passed := false, warnings := [], errors := [sizeErrorMsg 512 512] } : ValidationResult) := by
    simp [check_size, cimg512, constImg]
  have hcc : ∀ r, check_color_count cimg512 r = r := fun r => by
    simp [check_color_count, h0]
  simp only [validate]
  rw [hs, if_neg (by simp [cimg512, constImg]), hcc]

/-- Filtering out the violators is empty iff every element is accepted
(threshold 10). -/
theorem filter_lt_eq_nil_iff_all_le {α : Type} (g : α → Nat) (l : List α) :
    l.filter (fun c => decide (10 < g c)) = [] ↔ l.all (fun c => decide (g c ≤ 10)) = true := by
  induction l with
  | nil => simp
  | cons c l ih =>
    by_cases h : 10 < g c
    · simp [List.filter_cons, h, Nat.not_le.2 h]
    · simp [List.filter_cons, h, Nat.not_lt.1 h, ih]

/-- C2: For every image, the palette check counts distinct RGB triples among
the pixels of the 256×256 nearest-neighbour downsample whose alpha exceeds 10
(alpha is not part of the count key); a count ≤ 5 leaves the result untouched,
a count in 6..20 appends exactly one warning citing the count (no error, no
`passed` change), and a count > 20 sets `passed := false` and appends exactly
one error citing the count. -/
theorem C2_palette_check_thresholds (img : Img) (r : ValidationResult) :
    ((opaqueColors img).length
        = (((smallData img).filter (fun p => p.a > 10)).map
            (fun p => (p.r, p.g, p.b))).toFinset.card
      ∧ ((opaqueColors img).length ≤ 5 → check_color_count img r = r)
      ∧ (6 ≤ (opaqueColors img).length ∧ (opaqueColors img).length ≤ 20 →
          check_color_count img r
            = { r with warnings := r.warnings ++ [colorWarnMsg (opaqueColors img).length] }
          ∧ ∃ u v, (colorWarnMsg (opaqueColors img).length).data
              = u ++ (toString (opaqueColors img).length).data ++ v)
      ∧ (20 < (opaqueColors img).length →
          check_color_count img r
            = { r with passed := false
                       errors := r.errors ++ [colorErrorMsg (opaqueColors img).length] }
          ∧ ∃ u v, (colorErrorMsg (opaqueColors img).length).data
              = u ++ (toString (opaqueColors img).length).data ++ v)) := by
  refine ⟨(List.card_toFinset _).symm, fun h => ?_, fun h => ⟨?_, ?_⟩, fun h => ⟨?_, ?_⟩⟩
  · simp only [check_color_count]
    rw [if_neg (by omega), if_neg (by omega)]
  · simp only [check_color_count]
    rw [if_neg (by omega), if_pos (by omega)]
  · exact ⟨"Opaque color count is ".data,
      " (ideal is 1) — may have anti-aliasing or slight variation".data,
      by simp [colorWarnMsg, List.append_assoc]⟩
  · simp only [check_color_count]
    rw [if_pos (by omega)]
  · exact ⟨"Too many opaque colors (".data,
      ") — image likely has gradients or details".data,
      by simp [colorErrorMsg, List.append_assoc]⟩

/-- Witness for C2 at a concrete image: the transparent constant 1024×1024
image has 0 distinct opaque colors, and the palette check leaves the fresh
result unchanged. -/
theorem C2_palette_check_thresholds_witness :
    (opaqueColors cimgGood).length ≤ 5 ∧ check_color_count cimgGood {} = {} := by
  have h0 : opaqueColors cimgGood = [] := opaqueColors_transparent _ _ _ (by norm_num)
  have h : (opaqueColors cimgGood).length ≤ 5 := by rw [h0]; norm_num
  exact ⟨h, (C2_palette_check_thresholds cimgGood {}).2.1 h⟩

/-- C3: The corner check depends only on the four pixels (0,0), (1023,0),
(0,1023), (1023,1023); a corner is accepted iff its alpha is ≤ 10 (its RGB is
irrelevant: `passed` is and-ed with acceptance of every corner); one error
naming each violating corner is appended; and when exactly one corner has
alpha > 10 the check on a fresh result gives `ok = false` with exactly that
one corner error. -/
theorem C3_corner_check (img img' : Img) (r : ValidationResult) :
    ((∀ c ∈ cornerList, img'.pix c.1.1 c.1.2 = img.pix c.1.1 c.1.2) →
        check_corners img' r = check_corners img r)
    ∧ (check_corners img r).passed
        = (r.passed && cornerList.all (fun c => decide ((img.pix c.1.1 c.1.2).a ≤ 10)))
    ∧ (check_corners img r).errors
        = r.errors ++ (cornerList.filter (fun c => decide (10 < (img.pix c.1.1 c.1.2).a))).map
            (fun c => cornerErrorMsg c.2 c.1.1 c.1.2 (img.pix c.1.1 c.1.2))
    ∧ (∀ c₀, cornerList.filter (fun c => decide (10 < (img.pix c.1.1 c.1.2).a)) = [c₀] →
        (check_corners img {}).ok = false
        ∧ (check_corners img {}).errors
            = [cornerErrorMsg c₀.2 c₀.1.1 c₀.1.2 (img.pix c₀.1.1 c₀.1.2)]) := by
  refine ⟨fun h => ?_, by simp [check_corners_eq], by simp [check_corners_eq], fun c₀ hf => ?_⟩
  · have h1 : img'.pix 0 0 = img.pix 0 0 := h ((0, 0), "top-left") (by simp [cornerList])
    have h2 : img'.pix 1023 0 = img.pix 1023 0 := h ((1023, 0), "top-right") (by simp [cornerList])
    have h3 : img'.pix 0 1023 = img.pix 0 1023 :=
      h ((0, 1023), "bottom-left") (by simp [cornerList])
    have h4 : img'.pix 1023 1023 = img.pix 1023 1023 :=
      h ((1023, 1023), "bottom-right") (by simp [cornerList])
    rw [check_corners_eq, check_corners_eq]
    by_cases b1 : 10 < (img.pix 0 0).a <;> by_cases b2 : 10 < (img.pix 1023 0).a <;>
      by_cases b3 : 10 < (img.pix 0 1023).a <;> by_cases b4 : 10 < (img.pix 1023 1023).a <;>
      simp [cornerList, List.filter_cons, List.all_cons, h1, h2, h3, h4, b1, b2, b3, b4]
  · constructor
    · simp [ValidationResult.ok, check_corners_eq, hf]
    · simp [check_corners_eq, hf]

/-- Witness for C3 at a concrete image with exactly one opaque corner
(top-left at alpha 255): one corner error naming top-left, `ok = false`. -/
theorem C3_corner_check_witness :
    cornerList.filter (fun c => decide (10 < (oneCornerImg.pix c.1.1 c.1.2).a))
      = [((0, 0), "top-left")]
    ∧ (check_corners oneCornerImg {}).ok = false
    ∧ (check_corners oneCornerImg {}).errors
        = [cornerErrorMsg "top-left" 0 0 (oneCornerImg.pix 0 0)] := by
  have hf : cornerList.filter (fun c => decide (10 < (oneCornerImg.pix c.1.1 c.1.2).a))
      = [((0, 0), "top-left")] := by decide
  obtain ⟨hok, herr⟩ :=
    (C3_corner_check oneCornerImg oneCornerImg {}).2.2.2 ((0, 0), "top-left") hf
  exact ⟨hf, hok, herr⟩

/-- C4: When the image is not 1024×1024, `validate` is exactly the palette
check applied to the size-check result (the corner check does not occur in
the pipeline at all), the size result carries a single error naming the
actual dimensions; and for every image `validate` factors through the palette
check, i.e. the palette check always runs. -/
theorem C4_size_short_circuit (img : Img) :
    ((img.width, img.height) ≠ (1024, 1024) →
        validate img = check_color_count img (check_size img {})
        ∧ check_size img {}
            = ({ passed := false, warnings := [],
                 errors := [sizeErrorMsg img.width img.height] } : ValidationResult)
        ∧ ∃ u v, (sizeErrorMsg img.width img.height).data
            = u ++ (toString img.width).data ++ "x".data ++ (toString img.height).data ++ v)
    ∧ (∃ r', validate img = check_color_count img r') := by
  constructor
  · intro h
    refine ⟨?_, ?_, ?_⟩
    · simp only [validate]; rw [if_neg h]
    · simp only [check_size]; rw [if_pos h]; simp
    · exact ⟨"Expected 1024x1024, got ".data, [],
        by simp [sizeErrorMsg, List.append_assoc]⟩
  · by_cases h : (img.width, img.height) = (1024, 1024)
    · exact ⟨check_corners img (check_size img {}), by simp only [validate]; rw [if_pos h]⟩
    · exact ⟨check_size img {}, by simp only [validate]; rw [if_neg h]⟩

/-- Witness for C4 at the concrete 512×512 image: the size error names
"512x512" and `validate` is the palette check after the size check. -/
theorem C4_size_short_circuit_witness :
    (cimg512.width, cimg512.height) ≠ (1024, 1024)
    ∧ validate cimg512 = check_color_count cimg512 (check_size cimg512 {})
    ∧ check_size cimg512 {}
        = ({ passed := false, warnings := [],
             errors := [sizeErrorMsg 512 512] } : ValidationResult)
    ∧ sizeErrorMsg 512 512 = "Expected 1024x1024, got 512x512" := by
  have h : (cimg512.width, cimg512.height) ≠ (1024, 1024) := by decide
  obtain ⟨ha, hb, -⟩ := (C4_size_short_circuit cimg512).1 h
  exact ⟨h, ha, hb, by decide⟩

/-- C7: `ok` is true iff `passed` is true and `errors` is empty (warnings do
not affect `ok`), and no check ever resets `passed` from false back to true. -/
theorem C7_ok_and_passed_monotone (img : Img) (r : ValidationResult) :
    (r.ok = true ↔ (r.passed = true ∧ r.errors = []))
    ∧ (∀ ws, ({ r with warnings := ws } : ValidationResult).ok = r.ok)
    ∧ (r.passed = false →
        (check_size img r).passed = false
        ∧ (check_corners img r).passed = false
        ∧ (check_color_count img r).passed = false) := by
  refine ⟨?_, fun ws => rfl, fun hp => ⟨?_, ?_, ?_⟩⟩
  · simp [ValidationResult.ok, List.isEmpty_iff]
  · simp only [check_size]; split <;> simp [hp]
  · rw [check_corners_eq]; simp [hp]
  · simp only [check_color_count]; split
    · simp
    · split <;> simp [hp]

/-- Witness for C7: starting from a result with `passed = false`, every check
leaves `passed` false. -/
theorem C7_ok_and_passed_monotone_witness :
    (({ passed := false, warnings := [], errors := [] } : ValidationResult).passed = false)
    ∧ (check_size cimgGood { passed := false, warnings := [], errors := [] }).passed = false
    ∧ (check_corners cimgGood { passed := false, warnings := [], errors := [] }).passed = false
    ∧ (check_color_count cimgGood { passed := false, warnings := [], errors := [] }).passed
        = false :=
  ⟨rfl, (C7_ok_and_passed_monotone cimgGood
    { passed := false, warnings := [], errors := [] }).2.2 rfl⟩

/-- The size check preserves "`passed` is false iff some error was recorded". -/
theorem inv_check_size (img : Img) (r : ValidationResult)
    (h : r.passed = false ↔ r.errors ≠ []) :
    (check_size img r).passed = false ↔ (check_size img r).errors ≠ [] := by
  simp only [check_size]; split
  · simp
  · exact h

/-- The corner check preserves "`passed` is false iff some error was
recorded". -/
theorem inv_check_corners (img : Img) (r : ValidationResult)
    (h : r.passed = false ↔ r.errors ≠ []) :
    (check_corners img r).passed = false ↔ (check_corners img r).errors ≠ [] := by
  rw [check_corners_eq]
  by_cases hall : cornerList.all (fun c => decide ((img.pix c.1.1 c.1.2).a ≤ 10)) = true
  · have hf : cornerList.filter (fun c => decide (10 < (img.pix c.1.1 c.1.2).a)) = [] :=
      (filter_lt_eq_nil_iff_all_le (fun c => (img.pix c.1.1 c.1.2).a) cornerList).2 hall
    rw [hall, hf]; simpa using h
  · have hb : cornerList.all (fun c => decide ((img.pix c.1.1 c.1.2).a ≤ 10)) = false :=
      Bool.eq_false_iff.2 hall
    have hf : cornerList.filter (fun c => decide (10 < (img.pix c.1.1 c.1.2).a)) ≠ [] := by
      intro hnil
      exact hall ((filter_lt_eq_nil_iff_all_le (fun c => (img.pix c.1.1 c.1.2).a) cornerList).1 hnil)
    simp [hb, hf, List.append_eq_nil, List.map_eq_nil_iff]

/-- The palette check preserves "`passed` is false iff some error was
recorded". -/
theorem inv_check_color_count (img : Img) (r : ValidationResult)
    (h : r.passed = false ↔ r.errors ≠ []) :
    (check_color_count img r).passed = false ↔ (check_color_count img r).errors ≠ [] := by
  simp only [check_color_count]; split
  · simp
  · split
    · simpa using h
    · exact h

/-- C10: For every image, `validate` yields `passed = false` exactly when at
least one error was recorded, hence `ok` always coincides with `passed`. -/
theorem C10_passed_iff_errors (img : Img) :
    ((validate img).passed = false ↔ (validate img).errors ≠ [])
    ∧ (validate img).ok = (validate img).passed := by
  have hmain : (validate img).passed = false ↔ (validate img).errors ≠ [] := by
    simp only [validate]
    by_cases hsz : (img.width, img.height) = (1024, 1024)
    · rw [if_pos hsz]
      exact inv_check_color_count _ _ (inv_check_corners _ _ (inv_check_size _ _ (by simp)))
    · rw [if_neg hsz]
      exact inv_check_color_count _ _ (inv_check_size _ _ (by simp))
  refine ⟨hmain, ?_⟩
  cases hpv : (validate img).passed with
  | false => simp [ValidationResult.ok, hpv]
  | true =>
    have herr : (validate img).errors = [] := by
      by_contra hne
      have := hmain.2 hne
      rw [hpv] at this
      cases this
    simp [ValidationResult.ok, hpv, herr]

/-- C8: From any starting session state, two successive `recordEdit` calls
each increment `editCount` by exactly one, each leave `lastGenerated` as the
single-element list holding the path of that call (so the most recent path
after the second call), and each append exactly one edit history entry. -/
theorem C8_record_edit_twice (s : SessionState) (p1 c1 t1 p2 c2 t2 : String) :
    (update_session_after_edit p1 c1 t1 s).edit_count = s.edit_count + 1
    ∧ (update_session_after_edit p2 c2 t2 (update_session_after_edit p1 c1 t1 s)).edit_count
        = (update_session_after_edit p1 c1 t1 s).edit_count + 1
    ∧ (update_session_after_edit p1 c1 t1 s).last_generated = [p1]
    ∧ (update_session_after_edit p2 c2 t2 (update_session_after_edit p1 c1 t1 s)).last_generated
        = [p2]
    ∧ (update_session_after_edit p1 c1 t1 s).history
        = s.history ++ [HistoryEntry.edit c1 p1 t1]
    ∧ (update_session_after_edit p2 c2 t2 (update_session_after_edit p1 c1 t1 s)).history
        = (update_session_after_edit p1 c1 t1 s).history ++ [HistoryEntry.edit c2 p2 t2] :=
  ⟨rfl, rfl, rfl, rfl, rfl, rfl⟩

/-- C9 (code bug): `load_session` returns the documented default state
(editCount 0, empty lists and strings) on an absent file, on an `OSError`,
and on a JSON decode failure — but it does not hold for every unreadable or
invalid session file, contrary to the claim and to the function's own
docstring ("Load session state from disk, or return defaults"): a readable
session file whose bytes are not valid UTF-8 makes `path.read_text()` raise
`UnicodeDecodeError`, which `except (json.JSONDecodeError, OSError)` does
not catch, so the error reaches the caller instead of the default state;
and content that is valid JSON of the wrong shape (e.g. the list `[1]`) is
returned as-is rather than replaced by the default. -/
theorem C9_load_session_raises_on_undecodable :
    (∀ parse, load_session parse SessionFile.undecodable = LoadResult.unicodeDecodeError)
    ∧ (∀ parse, load_session parse SessionFile.undecodable
        ≠ LoadResult.value (PyJson.sessionDict default_session))
    ∧ (∀ parse, load_session parse SessionFile.absent
        = LoadResult.value (PyJson.sessionDict default_session))
    ∧ (∀ parse, load_session parse SessionFile.unreadable
        = LoadResult.value (PyJson.sessionDict default_session))
    ∧ load_session (fun _ => none) (SessionFile.content "not json")
        = LoadResult.value (PyJson.sessionDict default_session)
    ∧ load_session (fun _ => some PyJson.otherValue) (SessionFile.content "[1]")
        = LoadResult.value PyJson.otherValue
    ∧ load_session (fun _ => some PyJson.otherValue) (SessionFile.content "[1]")
        ≠ LoadResult.value (PyJson.sessionDict default_session)
    ∧ default_session.edit_count = 0
    ∧ default_session.last_generated = [] := by
  refine ⟨fun _ => rfl, fun _ h => ?_, fun _ => rfl, fun _ => rfl, rfl, rfl, ?_, rfl, rfl⟩
  · exact LoadResult.noConfusion h
  · intro h
    exact PyJson.noConfusion (LoadResult.value.inj h)

/-- Witness for C9's theorem at a concrete parser: the undecodable file
state raises, the absent file state yields the default. -/
theorem C9_load_session_raises_on_undecodable_witness :
    load_session (fun _ => none) SessionFile.undecodable = LoadResult.unicodeDecodeError
    ∧ load_session (fun _ => none) SessionFile.undecodable
        ≠ LoadResult.value (PyJson.sessionDict default_session)
    ∧ load_session (fun _ => none) SessionFile.absent
        = LoadResult.value (PyJson.sessionDict default_session) := by
  obtain ⟨h1, h2, h3, -⟩ := C9_load_session_raises_on_undecodable
  exact ⟨h1 _, h2 _, h3 _⟩

/-! ### Lemmas about case-insensitive matching and replacement -/

/-- Case-insensitive character comparison is symmetric. -/
theorem lowerEq_comm (a b : Char) : lowerEq a b = lowerEq b a := by
  by_cases h : a.toLower = b.toLower
  · simp [lowerEq, h]
  · have h' : ¬b.toLower = a.toLower := fun he => h he.symm
    simp [lowerEq, h, h']

/-- Unfolding of `replaceCI` on the empty text. -/
theorem replaceCI_nil (p r : List Char) : replaceCI p r [] = [] := by
  rw [replaceCI]

/-- Unfolding of `replaceCI` on a cons cell. -/
theorem replaceCI_cons (p r : List Char) (c : Char) (cs : List Char) :
    replaceCI p r (c :: cs)
      = if isPrefCI p (c :: cs) then r ++ replaceCI p r (cs.drop (p.length - 1))
        else c :: replaceCI p r cs := by
  rw [replaceCI]

/-- Only the empty pattern matches in front of the empty text. -/
theorem isPrefCI_nil_inv (a : List Char) (h : isPrefCI a [] = true) : a = [] := by
  cases a with
  | nil => rfl
  | cons x xs => simp [isPrefCI] at h

/-- A case-insensitive prefix is no longer than the text. -/
theorem isPrefCI_length (a : List Char) :
    ∀ b, isPrefCI a b = true → a.length ≤ b.length := by
  induction a with
  | nil => intro b _; simp
  | cons x xs ih =>
    intro b h
    cases b with
    | nil => simp [isPrefCI] at h
    | cons c cs =>
      simp only [isPrefCI, Bool.and_eq_true] at h
      simpa using ih cs h.2

/-- A short case-insensitive prefix of `u ++ v` is one of `u`. -/
theorem isPrefCI_append_left (a : List Char) :
    ∀ u v, isPrefCI a (u ++ v) = true → a.length ≤ u.length → isPrefCI a u = true := by
  induction a with
  | nil => intro u v _ _; rfl
  | cons x xs ih =>
    intro u v h hlen
    cases u with
    | nil => simp at hlen
    | cons c cs =>
      simp only [List.cons_append, isPrefCI, Bool.and_eq_true] at h ⊢
      exact ⟨h.1, ih cs v h.2 (by simpa using hlen)⟩

/-- When `u` is shorter than a case-insensitive prefix `a` of `u ++ v`, then
`u` itself case-insensitively matches the front of `a`. -/
theorem isPrefCI_append_swap (u : List Char) :
    ∀ a v, isPrefCI a (u ++ v) = true → u.length ≤ a.length → isPrefCI u a = true := by
  induction u with
  | nil => intro a v _ _; rfl
  | cons c cs ih =>
    intro a v h hlen
    cases a with
    | nil => simp at hlen
    | cons x xs =>
      simp only [List.cons_append, isPrefCI, Bool.and_eq_true] at h ⊢
      exact ⟨(lowerEq_comm c x) ▸ h.1, ih xs v h.2 (by simpa using hlen)⟩

/-- The part of a case-insensitive prefix of `u ++ v` that extends past `u`
case-insensitively matches the front of `v`. -/
theorem isPrefCI_append_drop (u : List Char) :
    ∀ a v, isPrefCI a (u ++ v) = true → u.length ≤ a.length →
      isPrefCI (a.drop u.length) v = true := by
  induction u with
  | nil => intro a v h _; simpa using h
  | cons c cs ih =>
    intro a v h hlen
    cases a with
    | nil => simp at hlen
    | cons x xs =>
      simp only [List.cons_append, isPrefCI, Bool.and_eq_true] at h
      simpa [List.drop] using ih xs v h.2 (by simpa using hlen)

/-- A case-insensitive match at the front is an occurrence. -/
theorem containsCI_of_isPrefCI (p s : List Char) (h : isPrefCI p s = true) :
    containsCI p s = true := by
  cases s with
  | nil => rw [isPrefCI_nil_inv p h]; rfl
  | cons c cs => simp [containsCI, h]

/-- Occurrences survive extra characters in front. -/
theorem containsCI_cons_of (p : List Char) (c : Char) (s : List Char)
    (h : containsCI p s = true) : containsCI p (c :: s) = true := by
  simp [containsCI, h]

/-- Every character of a case-insensitive prefix matches some character of
the text. -/
theorem isPrefCI_mem (a : List Char) :
    ∀ b, isPrefCI a b = true → ∀ c ∈ a, ∃ d ∈ b, lowerEq c d = true := by
  induction a with
  | nil => intro b _ c hc; simp at hc
  | cons x xs ih =>
    intro b h c hc
    cases b with
    | nil => simp [isPrefCI] at h
    | cons d ds =>
      simp only [isPrefCI, Bool.and_eq_true] at h
      rcases List.mem_cons.1 hc with rfl | hc'
      · exact ⟨d, List.mem_cons_self d ds, h.1⟩
      · obtain ⟨e, he, hle⟩ := ih ds h.2 c hc'
        exact ⟨e, List.mem_cons_of_mem d he, hle⟩

/-- Matching a longer pattern implies matching any plain prefix of it. -/
theorem isPrefCI_mono (a : List Char) :
    ∀ b s, a <+: b → isPrefCI b s = true → isPrefCI a s = true := by
  induction a with
  | nil => intro b s _ _; rfl
  | cons x xs ih =>
    intro b s hab h
    obtain ⟨t, rfl⟩ := hab
    cases s with
    | nil => simp [isPrefCI] at h
    | cons c cs =>
      simp only [List.cons_append, isPrefCI, Bool.and_eq_true] at h ⊢
      exact ⟨h.1, ih (xs ++ t) cs ⟨t, rfl⟩ h.2⟩

/-- An occurrence of a longer pattern contains an occurrence of any plain
prefix of it. -/
theorem containsCI_mono (a b : List Char) (hab : a <+: b) :
    ∀ s, containsCI b s = true → containsCI a s = true := by
  intro s
  induction s with
  | nil =>
    intro h
    simp only [containsCI, List.isEmpty_iff] at h ⊢
    rw [h] at hab
    simpa using List.prefix_nil.1 hab
  | cons c cs ih =>
    intro h
    simp only [containsCI, Bool.or_eq_true] at h ⊢
    rcases h with h | h
    · exact Or.inl (isPrefCI_mono a b (c :: cs) hab h)
    · exact Or.inr (ih h)

/-- If the pattern does not occur, replacement is the identity. -/
theorem replaceCI_of_not_contains (p r s : List Char) (h : containsCI p s = false) :
    replaceCI p r s = s := by
  induction s with
  | nil => exact replaceCI_nil p r
  | cons c cs ih =>
    simp only [containsCI, Bool.or_eq_false_iff] at h
    rw [replaceCI_cons, if_neg (by simp [h.1]), ih h.2]

/-- Decomposition of an occurrence in `u ++ v`: it lies in `u`, lies in `v`,
or straddles the boundary, in which case a short nonempty suffix of `u`
matches the front of the pattern and the rest of the pattern matches the
front of `v`. -/
theorem containsCI_append_cases (p : List Char) :
    ∀ u v, containsCI p (u ++ v) = true →
      containsCI p u = true ∨ containsCI p v = true
      ∨ ∃ u₂, u₂ <:+ u ∧ u₂ ≠ [] ∧ u₂.length < p.length
          ∧ isPrefCI u₂ p = true ∧ isPrefCI (p.drop u₂.length) v = true := by
  intro u
  induction u with
  | nil => intro v h; exact Or.inr (Or.inl (by simpa using h))
  | cons c u' ih =>
    intro v h
    have h' : isPrefCI p (c :: (u' ++ v)) = true ∨ containsCI p (u' ++ v) = true := by
      simpa [containsCI, List.cons_append] using h
    rcases h' with hh | ht
    · by_cases hlen : p.length ≤ (c :: u').length
      · left
        refine containsCI_of_isPrefCI p (c :: u') ?_
        exact isPrefCI_append_left p (c :: u') v (by simpa [List.cons_append] using hh) hlen
      · right; right
        have hlt : (c :: u').length < p.length := Nat.not_le.1 hlen
        refine ⟨c :: u', List.suffix_refl _, by simp, hlt, ?_, ?_⟩
        · exact isPrefCI_append_swap (c :: u') p v (by simpa [List.cons_append] using hh)
            (Nat.le_of_lt hlt)
        · exact isPrefCI_append_drop (c :: u') p v (by simpa [List.cons_append] using hh)
            (Nat.le_of_lt hlt)
    · rcases ih v ht with h1 | h2 | ⟨u₂, hs, hne, hlt, ha, hb⟩
      · exact Or.inl (containsCI_cons_of p c u' h1)
      · exact Or.inr (Or.inl h2)
      · exact Or.inr (Or.inr ⟨u₂, hs.trans (List.suffix_cons c u'), hne, hlt, ha, hb⟩)

/-- If a proper suffix of the pattern matches the front of the replaced text,
it already matched the front of the original text (the replacement `r` is
assumed long enough and to match no proper suffix of the pattern at its
front). -/
theorem isPrefCI_drop_replaceCI (p r : List Char)
    (hlen : p.length ≤ r.length)
    (hnohead : ∀ k, 0 < k → k < p.length → isPrefCI (p.drop k) r = false) :
    ∀ n s, s.length ≤ n → ∀ k, 0 < k → k < p.length →
      isPrefCI (p.drop k) (replaceCI p r s) = true → isPrefCI (p.drop k) s = true := by
  intro n
  induction n with
  | zero =>
    intro s hs k hk1 hk2 h
    have hnil : s = [] := List.eq_nil_of_length_eq_zero (Nat.le_zero.1 hs)
    subst hnil
    rw [replaceCI_nil] at h
    have := isPrefCI_nil_inv _ h
    have hdrop : p.length - k = 0 := by simpa using congrArg List.length this
    omega
  | succ n ih =>
    intro s hs k hk1 hk2 h
    cases s with
    | nil =>
      rw [replaceCI_nil] at h
      have := isPrefCI_nil_inv _ h
      have hdrop : p.length - k = 0 := by simpa using congrArg List.length this
      omega
    | cons c cs =>
      rw [replaceCI_cons] at h
      by_cases hm : isPrefCI p (c :: cs) = true
      · rw [if_pos hm] at h
        have hshort : (p.drop k).length ≤ r.length := by
          simp only [List.length_drop]; omega
        have := isPrefCI_append_left (p.drop k) r _ h hshort
        rw [hnohead k hk1 hk2] at this
        cases this
      · rw [if_neg hm] at h
        have hdk : p.drop k = p.get ⟨k, hk2⟩ :: p.drop (k + 1) := by
          rw [List.drop_eq_getElem_cons hk2]; rfl
        rw [hdk] at h ⊢
        simp only [isPrefCI, Bool.and_eq_true] at h ⊢
        refine ⟨h.1, ?_⟩
        by_cases hk3 : k + 1 < p.length
        · exact ih cs (by simpa using Nat.lt_succ_iff.1 (Nat.lt_of_lt_of_le
            (by simp) hs)) (k + 1) (by omega) hk3 h.2
        · have hdnil : p.drop (k + 1) = [] := List.drop_eq_nil_of_le (by omega)
          rw [hdnil]
          rfl

/-- Core safety lemma: after one pass of `replaceCI` with pattern
`p0 :: pt`, the pattern no longer occurs anywhere in the output, provided the
replacement `r` is at least as long as the pattern, contains no character
case-matching the pattern head, does not contain the pattern, and no proper
suffix of the pattern matches the front of `r`. -/
theorem containsCI_replaceCI_eq_false (p0 : Char) (pt r : List Char)
    (hlen : (p0 :: pt).length ≤ r.length)
    (hnohead : ∀ k, 0 < k → k < (p0 :: pt).length → isPrefCI ((p0 :: pt).drop k) r = false)
    (hnotinr : containsCI (p0 :: pt) r = false)
    (hnop : ∀ c ∈ r, lowerEq c p0 = false) :
    ∀ n s, s.length ≤ n → containsCI (p0 :: pt) (replaceCI (p0 :: pt) r s) = false := by
  intro n
  induction n with
  | zero =>
    intro s hs
    have hnil : s = [] := List.eq_nil_of_length_eq_zero (Nat.le_zero.1 hs)
    subst hnil
    rw [replaceCI_nil]
    rfl
  | succ n ih =>
    intro s hs
    cases s with
    | nil => rw [replaceCI_nil]; rfl
    | cons c cs =>
      have hcsn : cs.length ≤ n := by simp at hs; omega
      rw [replaceCI_cons]
      by_cases hm : isPrefCI (p0 :: pt) (c :: cs) = true
      · rw [if_pos hm]
        have hdropn : (cs.drop ((p0 :: pt).length - 1)).length ≤ n := by
          simp only [List.length_drop]; omega
        set X := replaceCI (p0 :: pt) r (cs.drop ((p0 :: pt).length - 1)) with hX
        have hXfalse : containsCI (p0 :: pt) X = false := ih _ hdropn
        cases hcc : containsCI (p0 :: pt) (r ++ X) with
        | false => rfl
        | true =>
          exfalso
          rcases containsCI_append_cases (p0 :: pt) r X hcc with h1 | h2 | ⟨u₂, hsuf, hne, _, ha, _⟩
          · rw [hnotinr] at h1; cases h1
          · rw [hXfalse] at h2; cases h2
          · cases u₂ with
            | nil => exact hne rfl
            | cons d t =>
              have hd : d ∈ r := hsuf.subset (List.mem_cons_self d t)
              have : lowerEq d p0 = true := by
                simp only [isPrefCI, Bool.and_eq_true] at ha
                exact ha.1
              rw [hnop d hd] at this
              cases this
      · rw [if_neg hm]
        have hcs : containsCI (p0 :: pt) (replaceCI (p0 :: pt) r cs) = false := ih cs hcsn
        cases hhead : isPrefCI (p0 :: pt) (c :: replaceCI (p0 :: pt) r cs) with
        | false => simp [containsCI, hhead, hcs]
        | true =>
          exfalso
          simp only [isPrefCI, Bool.and_eq_true] at hhead
          have hpt : isPrefCI pt cs = true := by
            cases hpt0 : pt with
            | nil => rfl
            | cons q qt =>
              have hlt : 1 < (p0 :: pt).length := by simp [hpt0]
              have := isPrefCI_drop_replaceCI (p0 :: pt) r hlen hnohead cs.length cs
                (Nat.le_refl _) 1 (by omega) hlt (by simpa [hpt0] using hhead.2)
              simpa [hpt0] using this
          have : isPrefCI (p0 :: pt) (c :: cs) = true := by
            simp only [isPrefCI, Bool.and_eq_true]
            exact ⟨hhead.1, hpt⟩
          exact hm this

/-- After one replacement pass, "petal" no longer occurs (case-insensitively)
anywhere: the replacement phrase is long enough, contains no letter p, does
not contain "petal", and none of "etal"/"tal"/"al"/"l" matches its front. -/
theorem no_petal_after_replace (s : List Char) :
    containsCI "petal".data
      (replaceCI "petal".data "rounded leaf-like form".data s) = false := by
  have e : "petal".data = 'p' :: "etal".data := rfl
  rw [e]
  refine containsCI_replaceCI_eq_false 'p' "etal".data "rounded leaf-like form".data
    (by decide) ?_ (by decide) (by decide) s.length s (Nat.le_refl _)
  intro k h1 h2
  have h5 : ('p' :: "etal".data).length = 5 := by decide
  have h2' : k < 5 := by omega
  interval_cases k <;> decide

/-- The same for "petals" (its proper suffixes "etals"/"tals"/"als"/"ls"/"s"
do not match the front of the replacement phrase either). -/
theorem no_petals_after_replace (s : List Char) :
    containsCI "petals".data
      (replaceCI "petals".data "rounded leaf-like form".data s) = false := by
  have e : "petals".data = 'p' :: "etals".data := rfl
  rw [e]
  refine containsCI_replaceCI_eq_false 'p' "etals".data "rounded leaf-like form".data
    (by decide) ?_ (by decide) (by decide) s.length s (Nat.le_refl _)
  intro k h1 h2
  have h6 : ('p' :: "etals".data).length = 6 := by decide
  have h2' : k < 6 := by omega
  interval_cases k <;> decide

/-- `_sanitize` unfolded: one pass for "petal", then one for "petals". -/
theorem _sanitize_eq (s : String) :
    _sanitize s = ⟨replaceCI "petals".data "rounded leaf-like form".data
      (replaceCI "petal".data "rounded leaf-like form".data s.data)⟩ := rfl

/-- After `_sanitize`, neither banned word occurs (case-insensitively). -/
theorem _sanitize_no_banned (s : String) :
    containsCI "petal".data (_sanitize s).data = false
    ∧ containsCI "petals".data (_sanitize s).data = false := by
  have h1 : containsCI "petal".data
      (replaceCI "petal".data "rounded leaf-like form".data s.data) = false :=
    no_petal_after_replace s.data
  have h12 : containsCI "petals".data
      (replaceCI "petal".data "rounded leaf-like form".data s.data) = false := by
    cases hq : containsCI "petals".data
        (replaceCI "petal".data "rounded leaf-like form".data s.data) with
    | false => rfl
    | true =>
      exfalso
      have := containsCI_mono "petal".data "petals".data ⟨['s'], by decide⟩ _ hq
      rw [h1] at this
      cases this
  have h2 : replaceCI "petals".data "rounded leaf-like form".data
        (replaceCI "petal".data "rounded leaf-like form".data s.data)
      = replaceCI "petal".data "rounded leaf-like form".data s.data :=
    replaceCI_of_not_contains _ _ _ h12
  rw [_sanitize_eq]
  constructor
  · show containsCI "petal".data (replaceCI "petals".data _ _) = false
    rw [h2]; exact h1
  · show containsCI "petals".data (replaceCI "petals".data _ _) = false
    rw [h2]; exact h12

/-- C6: `_sanitize` is idempotent — sanitizing an already-sanitized string
returns it unchanged, for every input string: one pass removes every
(case-insensitive) occurrence of both banned words and the replacement
phrase introduces none. -/
theorem C6_sanitize_idempotent (s : String) : _sanitize (_sanitize s) = _sanitize s := by
  obtain ⟨h1, h2⟩ := _sanitize_no_banned s
  rw [_sanitize_eq (_sanitize s), replaceCI_of_not_contains _ _ _ h1,
    replaceCI_of_not_contains _ _ _ h2]

/-- A nonempty suffix of `A' ++ [x]` ends in `x`. -/
theorem suffix_concat_nonempty (A' : List Char) (x : Char) (A₂ : List Char)
    (hsuf : A₂ <:+ A' ++ [x]) (hne : A₂ ≠ []) : ∃ t, A₂ = t ++ [x] := by
  obtain ⟨w, hw⟩ := hsuf
  rcases List.eq_nil_or_concat A₂ with rfl | ⟨t, y, rfl⟩
  · exact absurd rfl hne
  · rw [List.concat_eq_append] at hw ⊢
    refine ⟨t, ?_⟩
    have h1 : (w ++ (t ++ [y])).getLast? = some y := by
      rw [← List.append_assoc]; exact List.getLast?_concat _
    have h2 : (A' ++ [x]).getLast? = some x := List.getLast?_concat _
    rw [hw, h2] at h1
    obtain rfl := Option.some.inj h1
    rfl

/-- If the final character `x` of a text case-matches no character of the
pattern, then no short nonempty suffix of the text matches the pattern's
front. -/
theorem short_suffix_no_match (A' p : List Char) (x : Char)
    (hx : ∀ b ∈ p, lowerEq x b = false) :
    ∀ A₂, A₂ <:+ A' ++ [x] → A₂ ≠ [] → A₂.length < p.length → isPrefCI A₂ p = false := by
  intro A₂ hsuf hne _
  obtain ⟨t, rfl⟩ := suffix_concat_nonempty A' x A₂ hsuf hne
  cases hp : isPrefCI (t ++ [x]) p with
  | false => rfl
  | true =>
    exfalso
    obtain ⟨d, hd, hld⟩ := isPrefCI_mem _ _ hp x (by simp)
    rw [hx d hd] at hld
    cases hld

/-- Replacement distributes over an occurrence-free left part: if the pattern
does not occur in `A` and no match can start inside `A` and straddle into
`d`, the left part passes through unchanged. -/
theorem replaceCI_append_of_safe (p r d : List Char) :
    ∀ A, containsCI p A = false →
      (∀ A₂, A₂ <:+ A → A₂ ≠ [] → A₂.length < p.length → isPrefCI A₂ p = false) →
      replaceCI p r (A ++ d) = A ++ replaceCI p r d := by
  intro A
  induction A with
  | nil => intro _ _; simp
  | cons c A' ih =>
    intro hA hsuf
    have hnm : isPrefCI p (c :: (A' ++ d)) = false := by
      cases hq : isPrefCI p (c :: (A' ++ d)) with
      | false => rfl
      | true =>
        exfalso
        by_cases hlen : p.length ≤ (c :: A').length
        · have h1 : isPrefCI p (c :: A') = true :=
            isPrefCI_append_left p (c :: A') d (by simpa [List.cons_append] using hq) hlen
          have h2 := containsCI_of_isPrefCI _ _ h1
          rw [hA] at h2; cases h2
        · have hlt : (c :: A').length < p.length := Nat.not_le.1 hlen
          have h1 : isPrefCI (c :: A') p = true :=
            isPrefCI_append_swap (c :: A') p d (by simpa [List.cons_append] using hq)
              (Nat.le_of_lt hlt)
          rw [hsuf (c :: A') (List.suffix_refl _) (by simp) hlt] at h1
          cases h1
    rw [List.cons_append, replaceCI_cons, if_neg (by simp [hnm])]
    rw [show (c :: A') ++ replaceCI p r d = c :: (A' ++ replaceCI p r d) from List.cons_append c A' _]
    congr 1
    refine ih ?_ ?_
    · simp only [containsCI, Bool.or_eq_false_iff] at hA
      exact hA.2
    · intro A₂ h2 hne hlt
      exact hsuf A₂ (h2.trans (List.suffix_cons c A')) hne hlt

/-- Sanitizing `head ++ "\n\nSUBJECT: " ++ desc` leaves the banned-word-free
head (which ends in a space, a character of neither banned word) untouched
and sanitizes the description part in place. -/
theorem _sanitize_append_subject (head desc : String)
    (h1 : containsCI "petal".data (head ++ "\n\nSUBJECT: ").data = false)
    (h2 : containsCI "petals".data (head ++ "\n\nSUBJECT: ").data = false) :
    (_sanitize (head ++ "\n\nSUBJECT: " ++ desc)).data
      = (head ++ "\n\nSUBJECT: ").data ++ (_sanitize desc).data := by
  have hsplit : (head ++ "\n\nSUBJECT: ").data
      = (head.data ++ "\n\nSUBJECT:".data) ++ [' '] := by
    rw [String.data_append, List.append_assoc]
    congr 1
  have hsufP : ∀ A₂, A₂ <:+ (head ++ "\n\nSUBJECT: ").data → A₂ ≠ [] →
      A₂.length < ("petal".data).length → isPrefCI A₂ "petal".data = false := by
    rw [hsplit]
    exact short_suffix_no_match _ _ ' ' (by decide)
  have hsufPS : ∀ A₂, A₂ <:+ (head ++ "\n\nSUBJECT: ").data → A₂ ≠ [] →
      A₂.length < ("petals".data).length → isPrefCI A₂ "petals".data = false := by
    rw [hsplit]
    exact short_suffix_no_match _ _ ' ' (by decide)
  have hdata : (head ++ "\n\nSUBJECT: " ++ desc).data
      = (head ++ "\n\nSUBJECT: ").data ++ desc.data := String.data_append _ _
  rw [_sanitize_eq, _sanitize_eq]
  show replaceCI "petals".data _ (replaceCI "petal".data _ _) = _
  rw [hdata]
  rw [replaceCI_append_of_safe "petal".data _ desc.data _ h1 hsufP]
  rw [replaceCI_append_of_safe "petals".data _ _ _ h2 hsufPS]

/-- C5: `build_prompts` returns exactly `numVariants` prompts; prompt `i`
(0-based) is the sanitized f-string built from the fixed preamble, the style
guide at index `i mod guideCount`, and the description; its text is exactly
the untouched head followed by the sanitized description, so it contains the
constraint preamble verbatim (as a prefix) and the sanitized description (as
a suffix).  Determinism is inherent: the embedding is a pure function of
`(description, num_variants)`. -/
theorem C5_build_prompts (desc : String) (n : Nat) (_h : 1 ≤ n) :
    (build_prompts desc n).length = n
    ∧ ∀ i, i < n →
        (build_prompts desc n).getD i ""
          = _sanitize (CONSTRAINTS_PREAMBLE ++ "\n"
              ++ VARIANT_GUIDES.getD (i % VARIANT_GUIDES.length) "" ++ "\n\nSUBJECT: " ++ desc)
        ∧ ((build_prompts desc n).getD i "").data
            = (CONSTRAINTS_PREAMBLE ++ "\n"
                ++ VARIANT_GUIDES.getD (i % VARIANT_GUIDES.length) "" ++ "\n\nSUBJECT: ").data
              ++ (_sanitize desc).data
        ∧ CONSTRAINTS_PREAMBLE.data <+: ((build_prompts desc n).getD i "").data
        ∧ (_sanitize desc).data <:+ ((build_prompts desc n).getD i "").data := by
  constructor
  · simp [build_prompts]
  · intro i hi
    have hget : (build_prompts desc n).getD i ""
        = _sanitize (CONSTRAINTS_PREAMBLE ++ "\n"
            ++ VARIANT_GUIDES.getD (i % VARIANT_GUIDES.length) "" ++ "\n\nSUBJECT: " ++ desc) := by
      rw [build_prompts, List.getD_eq_getElem?_getD, List.getElem?_map, List.getElem?_range hi]
      rfl
    have hlen3 : VARIANT_GUIDES.length = 3 := rfl
    have hcases : i % VARIANT_GUIDES.length = 0 ∨ i % VARIANT_GUIDES.length = 1
        ∨ i % VARIANT_GUIDES.length = 2 := by rw [hlen3]; omega
    have hdata : ((build_prompts desc n).getD i "").data
        = (CONSTRAINTS_PREAMBLE ++ "\n"
            ++ VARIANT_GUIDES.getD (i % VARIANT_GUIDES.length) "" ++ "\n\nSUBJECT: ").data
          ++ (_sanitize desc).data := by
      rw [hget]
      rcases hcases with hc | hc | hc <;> rw [hc] <;>
        exact _sanitize_append_subject _ desc (by decide) (by decide)
    refine ⟨hget, hdata, ?_, ⟨_, hdata.symm⟩⟩
    rw [hdata]
    refine ⟨("\n" ++ VARIANT_GUIDES.getD (i % VARIANT_GUIDES.length) ""
      ++ "\n\nSUBJECT: ").data ++ (_sanitize desc).data, ?_⟩
    simp [List.append_assoc]

/-- Witness for C5 at `numVariants = 1` and a description containing a banned
word. -/
theorem C5_build_prompts_witness :
    (1 : Nat) ≤ 1
    ∧ (build_prompts "petals on a flower" 1).length = 1
    ∧ (build_prompts "petals on a flower" 1).getD 0 ""
        = _sanitize (CONSTRAINTS_PREAMBLE ++ "\n"
            ++ VARIANT_GUIDES.getD (0 % VARIANT_GUIDES.length) "" ++ "\n\nSUBJECT: "
            ++ "petals on a flower")
    ∧ CONSTRAINTS_PREAMBLE.data <+: ((build_prompts "petals on a flower" 1).getD 0 "").data
    ∧ (_sanitize "petals on a flower").data
        <:+ ((build_prompts "petals on a flower" 1).getD 0 "").data := by
  obtain ⟨hl, hall⟩ := C5_build_prompts "petals on a flower" 1 (by norm_num)
  obtain ⟨h1, _, h3, h4⟩ := hall 0 (by norm_num)
  exact ⟨by norm_num, hl, h1, h3, h4⟩

/-- Mapping a function over the first components of a zip. -/
theorem map_fst_zip_map {α β γ : Type} (f : α → γ) :
    ∀ (a : List α) (b : List β), a.length ≤ b.length →
      (a.zip b).map (fun ip => f ip.1) = a.map f := by
  intro a
  induction a with
  | nil => intro b _; simp
  | cons x a' ih =>
    intro b h
    cases b with
    | nil => simp at h
    | cons y b' =>
      simp only [List.zip_cons_cons, List.map_cons]
      rw [ih b' (by simpa using h)]

/-- Every loop iteration appends exactly the variant's path to `saved_paths`,
whatever the validation outcome. -/
theorem _generate_variant_saved (env : GenEnv) (prompt : String) (i : Nat) (st : GenState) :
    (_generate_variant env prompt i st).saved = st.saved ++ [env.pathOf i] := by
  simp only [_generate_variant]
  split <;> rfl

/-- The generate loop records the variant paths in order. -/
theorem _generate_loop_saved (env : GenEnv) :
    ∀ (l : List (Nat × String)) (st : GenState),
      (_generate_loop env l st).saved = st.saved ++ l.map (fun ip => env.pathOf ip.1) := by
  intro l
  induction l with
  | nil => intro st; simp [_generate_loop]
  | cons ip rest ih =>
    intro st
    simp only [_generate_loop]
    rw [ih, _generate_variant_saved]
    simp [List.append_assoc]

/-- C1: In a generate invocation where the backend is a total function
(every call returns image bytes), a variant whose first validation is not
`ok` is retried exactly once with the original prompt plus the strengthened
suffix: the backend sees exactly the two prompts, the new bytes overwrite
the same path, the retry result is re-validated and recorded, and there is
no third call; a variant whose first validation is `ok` causes exactly one
call.  The variant's path enters `saved_paths` in both cases, the final list
of saved paths has length `numVariants`, and the session state afterwards
has `lastGenerated` equal to that full list and `editCount = 0`. -/
theorem C1_generate_retry_and_session (env : GenEnv) (desc : String) (n : Nat)
    (fs0 : String → Option (List Nat)) (s0 : SessionState) (_hn : 1 ≤ n) :
    ((_generate env desc n fs0 s0).1.saved = (List.range' 1 n).map env.pathOf
      ∧ (_generate env desc n fs0 s0).1.saved.length = n
      ∧ (_generate env desc n fs0 s0).2.last_generated = (_generate env desc n fs0 s0).1.saved
      ∧ (_generate env desc n fs0 s0).2.edit_count = 0)
    ∧ ∀ (prompt : String) (i : Nat) (st : GenState),
        ((validate (env.decode (env.gen prompt))).ok = false →
          _generate_variant env prompt i st =
            { fs := writeFile (writeFile st.fs (env.pathOf i) (env.gen prompt)) (env.pathOf i)
                (env.gen (prompt ++ strengthened_suffix))
              saved := st.saved ++ [env.pathOf i]
              calls := st.calls ++ [prompt, prompt ++ strengthened_suffix]
              results := st.results
                ++ [validate (env.decode (env.gen (prompt ++ strengthened_suffix)))] })
        ∧ ((validate (env.decode (env.gen prompt))).ok = true →
          _generate_variant env prompt i st =
            { fs := writeFile st.fs (env.pathOf i) (env.gen prompt)
              saved := st.saved ++ [env.pathOf i]
              calls := st.calls ++ [prompt]
              results := st.results ++ [validate (env.decode (env.gen prompt))] }) := by
  constructor
  · have hlenp : (build_prompts desc n).length = n := by simp [build_prompts]
    have hsaved : (_generate env desc n fs0 s0).1.saved = (List.range' 1 n).map env.pathOf := by
      simp only [_generate]
      rw [_generate_loop_saved, hlenp]
      rw [map_fst_zip_map env.pathOf _ _ (by simp [hlenp])]
      simp
    refine ⟨hsaved, by rw [hsaved]; simp, rfl, rfl⟩
  · intro prompt i st
    constructor
    · intro hbad
      simp only [_generate_variant]
      rw [if_neg (by simp [hbad])]
    · intro hgood
      simp only [_generate_variant]
      rw [if_pos hgood]

/-- Witness for C1 with a backend whose bytes always decode to the invalid
512×512 image, so the first validation fails and the retry branch runs. -/
theorem C1_generate_retry_and_session_witness :
    (1 : Nat) ≤ 1
    ∧ (_generate env512 "cat" 1 (fun _ => none) default_session).1.saved
        = (List.range' 1 1).map env512.pathOf
    ∧ (_generate env512 "cat" 1 (fun _ => none) default_session).1.saved.length = 1
    ∧ (_generate env512 "cat" 1 (fun _ => none) default_session).2.last_generated
        = (_generate env512 "cat" 1 (fun _ => none) default_session).1.saved
    ∧ (_generate env512 "cat" 1 (fun _ => none) default_session).2.edit_count = 0
    ∧ (validate (env512.decode (env512.gen "p"))).ok = false
    ∧ _generate_variant env512 "p" 1 ⟨fun _ => none, [], [], []⟩ =
        { fs := writeFile (writeFile (fun _ => none) (env512.pathOf 1) (env512.gen "p"))
            (env512.pathOf 1) (env512.gen ("p" ++ strengthened_suffix))
          saved := [] ++ [env512.pathOf 1]
          calls := [] ++ ["p", "p" ++ strengthened_suffix]
          results := [] ++ [validate (env512.decode (env512.gen ("p" ++ strengthened_suffix)))] } := by
  have hbad : (validate (env512.decode (env512.gen "p"))).ok = false := by
    show (validate cimg512).ok = false
    rw [validate_cimg512]
    rfl
  obtain ⟨⟨ha, hb, hc, hd⟩, hvar⟩ :=
    C1_generate_retry_and_session env512 "cat" 1 (fun _ => none) default_session (by norm_num)
  exact ⟨by norm_num, ha, hb, hc, hd, hbad,
    (hvar "p" 1 ⟨fun _ => none, [], [], []⟩).1 hbad⟩

end IconSkill
